import Mathlib

/-!
Shallow embedding of the PrimeTime-BD-Intel core pipeline:
  * src/pipelines/scraper_engine/normalize_jobs.py   (JobNormalizer)
  * src/pipelines/mapping_engine/map_jobs_to_programs.py (ProgramMappingEngine)

Strings are modelled as Lean `String`/`List Char`; all inputs in scope are
ASCII, for which Lean's `Char.toUpper`/`Char.toLower` agree with Python's
`str.upper()`/`str.lower()`.  Python scores are decimal literals added
exactly as written in the source; they are modelled as rationals.
External effects (the OpenAI completion call, `datetime.now()`,
`datetime.strptime`, the dictionary file on disk) are modelled as explicit
parameters or enumerated outcomes.
-/

namespace PrimeTime

/-- Python `\s` character class restricted to ASCII (`str.strip()` and
`re` whitespace): space, tab, newline, carriage return, vertical tab,
form feed. -/
def pyIsSpace (c : Char) : Bool :=
  c = ' ' || c = '\t' || c = '\n' || c = '\r' || c = '\x0b' || c = '\x0c'

/-- Python `\w` word character, ASCII fragment: `[a-zA-Z0-9_]`. -/
def isWordChar (c : Char) : Bool :=
  c.isAlphanum || c = '_'

/-- Python `str.upper()` (ASCII). -/
def strUpper (s : String) : String :=
  String.mk (s.data.map Char.toUpper)

/-- Python `str.lower()` (ASCII). -/
def strLower (s : String) : String :=
  String.mk (s.data.map Char.toLower)

/-- `startsW n h` : the char list `n` is an initial segment of `h`
(Python `str.startswith`, used to build the `in` operator). -/
def startsW : List Char → List Char → Bool
  | [], _ => true
  | _ :: _, [] => false
  | a :: as, b :: bs => a = b && startsW as bs

/-- Python's substring operator `needle in hay` on char lists; in
particular the empty needle occurs in every haystack. -/
def occursIn (needle : List Char) : List Char → Bool
  | [] => startsW needle []
  | c :: rest => startsW needle (c :: rest) || occursIn needle rest

/-- Python's `needle in hay` on strings. -/
def occursInS (needle hay : String) : Bool :=
  occursIn needle.data hay.data

/-! ### A small matcher for the clearance regexes

The four patterns of `JobNormalizer.clearance_patterns` only use literal
characters, `\s+`, alternation, and a surrounding `\b(?:...)\b`.  A pattern
is modelled as a list of alternatives, each alternative a list of tokens.
Every alternative in the source starts and ends with a word character, so
the `\b` on either side is exactly "the neighbouring character, when it
exists, is not a word character". -/

/-- One regex token: a literal character, or `\s+`. -/
inductive RTok where
  | lit (c : Char)
  | ws
deriving DecidableEq

/-- The literal tokens of a plain string. -/
def lits (s : String) : List RTok :=
  s.data.map RTok.lit

/-- Match a token list at the head of the input, returning the remaining
input on success.  In the source patterns `\s+` is always followed by a
non-whitespace literal, so consuming the maximal whitespace run is
equivalent to backtracking. -/
def matchToks : List RTok → List Char → Option (List Char)
  | [], rest => some rest
  | RTok.lit _ :: _, [] => none
  | RTok.lit c :: ts, d :: rest => if d = c then matchToks ts rest else none
  | RTok.ws :: ts, rest =>
      if (rest.takeWhile pyIsSpace).isEmpty then none
      else matchToks ts (rest.dropWhile pyIsSpace)

/-- `\b` next to a word character: the neighbour (`none` = string edge)
must not be a word character. -/
def boundaryOk (c? : Option Char) : Bool :=
  match c? with
  | none => true
  | some c => !isWordChar c

/-- Does one alternative match at the current position, with a word
boundary at its right end? -/
def altHere (alt : List RTok) (cs : List Char) : Bool :=
  match matchToks alt cs with
  | some rest => boundaryOk rest.head?
  | none => false

/-- `re.search` for a `\b(?:alt|...)\b` pattern: try every position,
carrying the previous character for the left word boundary. -/
def searchB (alts : List (List RTok)) : Option Char → List Char → Bool
  | prev, [] => boundaryOk prev && alts.any (fun a => altHere a [])
  | prev, c :: rest =>
      (boundaryOk prev && alts.any (fun a => altHere a (c :: rest)))
      || searchB alts (some c) rest

/-- `JobNormalizer.clearance_patterns`, in the source's insertion order
(Python dicts iterate in insertion order). -/
def clearancePatterns : List (String × List (List RTok)) :=
  [("TS/SCI",
     [lits "TS/SCI",
      lits "Top" ++ [RTok.ws] ++ lits "Secret/SCI",
      lits "Top" ++ [RTok.ws] ++ lits "Secret" ++ [RTok.ws] ++ lits "SCI"]),
   ("TS",
     [lits "TS",
      lits "Top" ++ [RTok.ws] ++ lits "Secret"]),
   ("Secret",
     [lits "Secret", lits "SECRET"]),
   ("Confidential",
     [lits "Confidential", lits "CONFIDENTIAL"])]

/-- `JobNormalizer._extract_clearance`: empty text yields `None`;
otherwise the text is upper-cased and the first pattern that matches
anywhere wins. -/
def extractClearance (description : String) : Option String :=
  if description.isEmpty then none
  else
    let up := strUpper description
    (clearancePatterns.find? (fun p => searchB p.2 none up.data)).map (fun p => p.1)

/-! ### JobNormalizer -/

/-- A raw scraped job record: a bag of optional string fields
(`normalize_jobs.py` reads every field with `.get`). -/
structure RawJob where
  job_id : Option String
  title : Option String
  company : Option String
  location : Option String
  description : Option String
  url : Option String
  posted_date : Option String
  source : Option String
  scraped_at : Option String
deriving DecidableEq

/-- The canonical job produced by `JobNormalizer.normalize_job`. -/
structure NormalizedJob where
  job_id : String
  title : String
  company : String
  location : String
  clearance_level : Option String
  description : String
  url : String
  posted_date : String
  source : String
  scraped_at : String
  normalized_at : String
deriving DecidableEq

/-- The two renderings of `datetime.now()` the normalizer uses:
`isoformat()` and the `%Y%m%d_%H%M%S` strftime stamp. -/
structure Clock where
  nowIso : String
  nowStamp : String
deriving DecidableEq

/-- `JobNormalizer._normalize_job_id`: empty ids are synthesized from the
clock; otherwise characters outside `[a-zA-Z0-9_-]` become `_` and the
result is lower-cased. -/
def normalizeJobId (clock : Clock) (jobId : String) : String :=
  if jobId.isEmpty then "normalized_" ++ clock.nowStamp
  else
    String.mk ((jobId.data.map
      (fun c => if c.isAlphanum || c = '_' || c = '-' then c else '_')).map Char.toLower)

/-- Python `str.strip()`: drop leading and trailing whitespace. -/
def stripStr (s : String) : String :=
  String.mk (((s.data.dropWhile pyIsSpace).reverse.dropWhile pyIsSpace).reverse)

lemma dropWhile_length_le {α : Type} (p : α → Bool) (l : List α) :
    (l.dropWhile p).length ≤ l.length := by
  induction l with
  | nil => simp
  | cons c rest ih =>
    simp only [List.dropWhile_cons]
    split
    · exact Nat.le_trans ih (Nat.le_succ _)
    · exact Nat.le_refl _

/-- `re.sub(r'\s+', ' ', ·)`: collapse every whitespace run to one space. -/
def collapseWs : List Char → List Char
  | [] => []
  | c :: rest =>
    if pyIsSpace c then ' ' :: collapseWs (rest.dropWhile pyIsSpace)
    else c :: collapseWs rest
termination_by l => l.length
decreasing_by
  · simpa using Nat.lt_succ_of_le (dropWhile_length_le pyIsSpace rest)
  · simp

/-- `JobNormalizer._normalize_title`. -/
def normalizeTitle (title : String) : String :=
  if title.isEmpty then ""
  else String.mk (collapseWs (stripStr title).data)

/-- The alias table of `JobNormalizer._normalize_company`. -/
def companyMappings : List (String × String) :=
  [("apex systems", "Apex Systems"),
   ("insight global", "Insight Global"),
   ("clearancejobs", "ClearedJobs"),
   ("clearedjobs.com", "ClearedJobs")]

/-- `JobNormalizer._normalize_company`: case-insensitive alias lookup on
the stripped name, defaulting to the stripped original. -/
def normalizeCompany (company : String) : String :=
  if company.isEmpty then ""
  else
    let key := strLower (stripStr company)
    match companyMappings.find? (fun p => p.1 = key) with
    | some p => p.2
    | none => stripStr company

/-- Case-insensitive literal match at the head of the input
(`re.IGNORECASE` on a letters-only literal). -/
def matchesCI : List Char → List Char → Bool
  | [], _ => true
  | _ :: _, [] => false
  | a :: as, b :: bs => (a.toUpper = b.toUpper) && matchesCI as bs

/-- `re.sub(rf'\b{abbr}\b', full, ·, flags=re.IGNORECASE)` for a
letters-only `abbr`: scan the text once, replacing each word-bounded
case-insensitive occurrence; the replacement text is not rescanned and
boundaries are judged on the original characters. -/
def subWordCI (abbr full : List Char) : Option Char → List Char → List Char
  | _, [] => []
  | prev, c :: rest =>
    if h : 0 < abbr.length ∧ boundaryOk prev = true ∧ matchesCI abbr (c :: rest) = true
        ∧ boundaryOk ((c :: rest).drop abbr.length).head? = true then
      full ++ subWordCI abbr full ((c :: rest).take abbr.length).getLast?
        ((c :: rest).drop abbr.length)
    else
      c :: subWordCI abbr full (some c) rest
termination_by _ l => l.length
decreasing_by
  · simp only [List.length_drop, List.length_cons]
    omega
  · simp

/-- The state-abbreviation table of `JobNormalizer._normalize_location`,
in source order. -/
def stateMappings : List (String × String) :=
  [("CA", "California"), ("TX", "Texas"), ("VA", "Virginia"),
   ("MD", "Maryland"), ("FL", "Florida"), ("WA", "Washington"),
   ("MO", "Missouri"), ("CT", "Connecticut"), ("UT", "Utah"),
   ("CO", "Colorado")]

/-- `JobNormalizer._normalize_location`: strip, collapse whitespace, then
apply each state substitution in turn to the running result. -/
def normalizeLocation (location : String) : String :=
  if location.isEmpty then ""
  else
    let collapsed := collapseWs (stripStr location).data
    String.mk (stateMappings.foldl
      (fun acc p => subWordCI p.1.data p.2.data none acc) collapsed)

/-- Scan for the next `>`; `some t` is the input after it. -/
def findTagEnd : List Char → Option (List Char)
  | [] => none
  | c :: t => if c = '>' then some t else findTagEnd t

lemma findTagEnd_length {l l' : List Char} (h : findTagEnd l = some l') :
    l'.length < l.length := by
  induction l with
  | nil => simp [findTagEnd] at h
  | cons c t ih =>
    simp only [findTagEnd] at h
    split at h
    · cases h
      simp
    · have := ih h
      simp only [List.length_cons]
      omega

/-- `re.sub(r'<[^>]+>', '', ·)`: delete every `<`…`>` span with at least
one non-`>` character inside; a `<` with no later `>` (or immediately
followed by `>`) stays. -/
def stripTags : List Char → List Char
  | [] => []
  | c :: rest =>
    if c = '<' ∧ rest.head? ≠ some '>' then
      match h : findTagEnd rest with
      | some rest' => stripTags rest'
      | none => c :: stripTags rest
    else c :: stripTags rest
termination_by l => l.length
decreasing_by
  · have := findTagEnd_length h
    simp only [List.length_cons]
    omega
  · simp
  · simp

/-- The character class kept by `re.sub(r'[^\w\s\-.,!?()]', '', ·)`. -/
def allowedDescChar (c : Char) : Bool :=
  isWordChar c || pyIsSpace c ||
    (['-', '.', ',', '!', '?', '(', ')'].contains c)

/-- `JobNormalizer._clean_description`: strip HTML tags, collapse
whitespace, drop unsafe characters, strip. -/
def cleanDescription (description : String) : String :=
  if description.isEmpty then ""
  else
    let c1 := stripTags description.data
    let c2 := collapseWs c1
    let c3 := c2.filter allowedDescChar
    String.mk (((c3.dropWhile pyIsSpace).reverse.dropWhile pyIsSpace).reverse)

/-- `JobNormalizer._normalize_date`.  `datetime.strptime` over the fixed
format list is external library behaviour, abstracted as the oracle
`parseDate` (`some iso` when one of the five formats parses, rendered as
`isoformat()`); any unparseable or empty date falls back to the clock. -/
def normalizeDate (clock : Clock) (parseDate : String → Option String)
    (dateStr : String) : String :=
  if dateStr.isEmpty then clock.nowIso
  else
    match parseDate dateStr with
    | some iso => iso
    | none => clock.nowIso

/-- `JobNormalizer.normalize_job`, field for field.  On well-formed input
(every present field a string) no exception path is reachable, so the body
always produces a record. -/
def normalizeJob (clock : Clock) (parseDate : String → Option String)
    (raw : RawJob) : NormalizedJob :=
  { job_id := normalizeJobId clock (raw.job_id.getD "")
    title := normalizeTitle (raw.title.getD "")
    company := normalizeCompany (raw.company.getD "")
    location := normalizeLocation (raw.location.getD "")
    clearance_level := extractClearance (raw.description.getD "")
    description := cleanDescription (raw.description.getD "")
    url := raw.url.getD ""
    posted_date := normalizeDate clock parseDate (raw.posted_date.getD "")
    source := raw.source.getD ""
    scraped_at := raw.scraped_at.getD clock.nowIso
    normalized_at := clock.nowIso }

/-- The `try/except` wrapper of `normalize_job`: `None` on an internal
exception, which on well-formed input never happens. -/
def normalizeJobOpt (clock : Clock) (parseDate : String → Option String)
    (raw : RawJob) : Option NormalizedJob :=
  some (normalizeJob clock parseDate raw)

/-- The normalization loop of `main`: append each non-`None` result in
input order. -/
def normalizeBatchLoop (clock : Clock) (parseDate : String → Option String)
    (jobs : List RawJob) : List NormalizedJob :=
  jobs.foldl
    (fun acc job =>
      match normalizeJobOpt clock parseDate job with
      | some n => acc ++ [n]
      | none => acc) []

/-! ### ProgramMappingEngine -/

/-- The job dict consumed by the mapping engine.  `title`, `company` and
`description` are read with `.get(key, '')`, so an absent field and an
empty one coincide; `job_id` is read with a bare `.get` and may be `None`. -/
structure JobData where
  job_id : Option String
  title : String
  company : String
  description : String
deriving DecidableEq

/-- One entry of the programs dictionary.  `full_name` is accessed with
`[...]` (required); `prime_contractor` with `.get(..., '')`; the three term
lists with `.get(..., [])` (absent = empty). -/
structure ProgramDetails where
  full_name : String
  prime_contractor : Option String
  acronyms : List String
  code_names : List String
  key_skills : List String
deriving DecidableEq

/-- The programs dictionary: code ↦ details, in iteration order. -/
abbrev ProgramsDict := List (String × ProgramDetails)

/-- A mapping result as built by the engine (one Python dict shape shared
by all three tiers). -/
structure MappingResult where
  job_id : Option String
  mapped_programs : List String
  confidence_score : ℚ
  reasoning : String
  keywords_found : List String
  mapped_at : String
  source : String
deriving DecidableEq

/-- The JSON object extracted from the model's text, after `json.loads`;
each field is read with `.get(key, default)`, so each may be absent. -/
structure ParsedAI where
  mapped_programs : Option (List String)
  confidence_score : Option ℚ
  reasoning : Option String
  keywords_found : Option (List String)
deriving DecidableEq

/-- Outcome of the external OpenAI completion call for one job.
`raises` covers every exception the call can produce (service error,
timeout, network failure); `responds parsed` is a returned text whose
embedded-JSON extraction (`re.search` + `json.loads` + dict reads in
`_parse_ai_response`) yielded `parsed` (`none` = no JSON object found, or
parsing/field access raised). -/
inductive ApiOutcome where
  | raises
  | responds (parsed : Option ParsedAI)
deriving DecidableEq

/-- Condition of the programs-dictionary file on disk. -/
inductive DictSource where
  | fileNotFound
  | malformedJson
  | content (d : ProgramsDict)
deriving DecidableEq

/-- `ProgramMappingEngine._load_programs_dictionary`: `open` + `json.load`
under `try/except FileNotFoundError`.  A missing file is caught and yields
`{}`; malformed JSON raises `json.JSONDecodeError`, which is *not* caught
and propagates out of `__init__`. -/
def loadProgramsDictionary : DictSource → Except String ProgramsDict
  | DictSource.fileNotFound => Except.ok []
  | DictSource.malformedJson => Except.error "JSONDecodeError"
  | DictSource.content d => Except.ok d

/-- `job_text` of `_keyword_based_mapping`:
`f"{title} {description}".lower()`. -/
def searchableText (job : JobData) : String :=
  strLower (job.title ++ " " ++ job.description)

/-- `program_terms`: lower-cased full name, acronyms, code names. -/
def programTerms (pd : ProgramDetails) : List String :=
  strLower pd.full_name ::
    (pd.acronyms.map strLower ++ pd.code_names.map strLower)

/-- `program_skills`: lower-cased key skills. -/
def programSkills (pd : ProgramDetails) : List String :=
  pd.key_skills.map strLower

/-- The company check: `prime_contractor` (default `''`) lower-cased,
as a Python substring of the lower-cased company. -/
def contractorBonus (pd : ProgramDetails) (job : JobData) : ℚ :=
  if occursInS (strLower (pd.prime_contractor.getD "")) (strLower job.company) then 0.4
  else 0

/-- `match_score` of one program: `+0.3` per occurring term, `+0.2` per
occurring skill, `+0.4` for a contractor match, accumulated exactly as the
source's loops do. -/
def matchScore (jobText : String) (job : JobData) (pd : ProgramDetails) : ℚ :=
  ((programTerms pd).foldl
      (fun s t => if occursInS t jobText then s + 0.3 else s) 0)
    + ((programSkills pd).foldl
        (fun s t => if occursInS t jobText then s + 0.2 else s) 0)
    + contractorBonus pd job

/-- `matched_keywords` of one program: the occurring terms then the
occurring skills, in list order. -/
def matchedKeywords (jobText : String) (pd : ProgramDetails) : List String :=
  (programTerms pd).filter (fun t => occursInS t jobText)
    ++ (programSkills pd).filter (fun t => occursInS t jobText)

/-- The body of the per-program loop of `_keyword_based_mapping`: when the
score reaches the threshold, append the code and its matched keywords. -/
def kwStep (thr : ℚ) (jobText : String) (job : JobData)
    (acc : List String × List String) (entry : String × ProgramDetails) :
    List String × List String :=
  if matchScore jobText job entry.2 ≥ thr then
    (acc.1 ++ [entry.1], acc.2 ++ matchedKeywords jobText entry.2)
  else acc

/-- `ProgramMappingEngine._keyword_based_mapping`.  `thr` is
`settings["program_mapping"]["keyword_match_threshold"]`; `now` is
`datetime.now().isoformat()`.  Python's `set(...)` is modelled as `dedup`
(its iteration order is unspecified in Python). -/
def keywordBasedMapping (thr : ℚ) (dict : ProgramsDict) (now : String)
    (job : JobData) : MappingResult :=
  let jobText := searchableText job
  let r := dict.foldl (kwStep thr jobText job) ([], [])
  { job_id := job.job_id
    mapped_programs := r.1
    confidence_score := min 0.7 (0.2 * (r.1.length : ℚ))
    reasoning := "Keyword-based mapping using terms: "
      ++ String.intercalate ", " r.2.dedup
    keywords_found := r.2.dedup
    mapped_at := now
    source := "keyword_matching" }

/-- `ProgramMappingEngine._create_fallback_mapping`. -/
def createFallbackMapping (now : String) (job : JobData) : MappingResult :=
  { job_id := job.job_id
    mapped_programs := []
    confidence_score := 0
    reasoning := "Failed to analyze job posting"
    keywords_found := []
    mapped_at := now
    source := "fallback" }

/-- `ProgramMappingEngine._parse_ai_response`: a successfully extracted
JSON object becomes an `ai_analysis` result with per-field defaults;
otherwise fall through to the keyword mapping of the same job. -/
def parseAIResponse (thr : ℚ) (dict : ProgramsDict) (now : String)
    (parsed : Option ParsedAI) (job : JobData) : MappingResult :=
  match parsed with
  | some p =>
      { job_id := job.job_id
        mapped_programs := p.mapped_programs.getD []
        confidence_score := p.confidence_score.getD 0
        reasoning := p.reasoning.getD ""
        keywords_found := p.keywords_found.getD []
        mapped_at := now
        source := "ai_analysis" }
  | none => keywordBasedMapping thr dict now job

/-- `ProgramMappingEngine.map_job_to_programs`: the completion call and
response handling under `try/except Exception`; any exception becomes the
fail-safe fallback mapping. -/
def mapJobToPrograms (thr : ℚ) (dict : ProgramsDict) (now : String)
    (outcome : ApiOutcome) (job : JobData) : MappingResult :=
  match outcome with
  | ApiOutcome.raises => createFallbackMapping now job
  | ApiOutcome.responds parsed => parseAIResponse thr dict now parsed job

/-- The per-job loop of `process_jobs_batch`, with `k` the index of the
first remaining job; `outcomes i` is the external outcome of job `i`'s
completion call. -/
def processJobsBatchAux (thr : ℚ) (dict : ProgramsDict) (now : String)
    (outcomes : Nat → ApiOutcome) : Nat → List JobData → List MappingResult
  | _, [] => []
  | k, job :: rest =>
      mapJobToPrograms thr dict now (outcomes k) job
        :: processJobsBatchAux thr dict now outcomes (k + 1) rest

/-- `ProgramMappingEngine.process_jobs_batch`, restricted to its mapping
loop (file I/O is a collaborator): one result per job, in input order. -/
def processJobsBatch (thr : ℚ) (dict : ProgramsDict) (now : String)
    (outcomes : Nat → ApiOutcome) (jobs : List JobData) : List MappingResult :=
  processJobsBatchAux thr dict now outcomes 0 jobs

/-! ### Concrete inputs used by counterexamples and witnesses -/

/-- A program definition for the F-35. -/
def pdF35 : ProgramDetails :=
  { full_name := "F-35 Lightning II", prime_contractor := some "Lockheed Martin",
    acronyms := ["F-35"], code_names := [], key_skills := ["avionics"] }

/-- A one-entry programs dictionary. -/
def dictA : ProgramsDict := [("F35", pdF35)]

/-- A job whose text matches the `avionics` skill only. -/
def jobA : JobData :=
  { job_id := some "j1", title := "Avionics Engineer", company := "ACME",
    description := "works on avionics" }

/-- A program definition with no `prime_contractor` field. -/
def pdNoContractor : ProgramDetails :=
  { full_name := "Placeholder", prime_contractor := none,
    acronyms := [], code_names := [], key_skills := [] }

/-- A fixed reading of the normalizer clock. -/
def clock0 : Clock :=
  { nowIso := "2026-10-12T00:00:00", nowStamp := "20261012_000000" }

/-- A date oracle under which no posted date parses. -/
def dateOracle0 : String → Option String := fun _ => none

/-- A raw record with a source but no scraped_at. -/
def rawNoScrape : RawJob :=
  { job_id := some "J-1", title := some "Engineer", company := none,
    location := none, description := none, url := none, posted_date := none,
    source := some "insight_global", scraped_at := none }

/-- A raw record carrying both source and scraped_at. -/
def rawFull : RawJob :=
  { job_id := some "IG-100", title := some "Engineer",
    company := some "Insight Global", location := some "Chantilly, VA",
    description := some "Secret clearance", url := some "https://example.org/j",
    posted_date := some "2025-01-01", source := some "insight_global",
    scraped_at := some "2025-01-01T00:00:00" }

/-! ### Helper lemmas -/

lemma occursIn_nil (hay : List Char) : occursIn [] hay = true := by
  induction hay with
  | nil => rfl
  | cons c rest ih => simp [occursIn, startsW]

lemma score_foldl_eq (w : ℚ) (p : String → Bool) (l : List String) (init : ℚ) :
    l.foldl (fun s t => if p t then s + w else s) init
      = init + w * (l.countP p : ℚ) := by
  induction l generalizing init with
  | nil => simp
  | cons a t ih =>
    simp only [List.foldl_cons, List.countP_cons]
    by_cases h : p a
    · simp only [h, if_true, ih]
      push_cast
      ring
    · simp [h, ih]

lemma matchScore_eq (jobText : String) (job : JobData) (pd : ProgramDetails) :
    matchScore jobText job pd =
      0.3 * ((programTerms pd).countP (fun t => occursInS t jobText) : ℚ)
        + 0.2 * ((programSkills pd).countP (fun t => occursInS t jobText) : ℚ)
        + contractorBonus pd job := by
  simp [matchScore, score_foldl_eq]

lemma mem_kwFold (thr : ℚ) (jobText : String) (job : JobData) (p : String) :
    ∀ (dict : ProgramsDict) (acc : List String × List String),
      (p ∈ (dict.foldl (kwStep thr jobText job) acc).1 ↔
        p ∈ acc.1 ∨ ∃ pd, (p, pd) ∈ dict ∧ thr ≤ matchScore jobText job pd) := by
  intro dict
  induction dict with
  | nil => intro acc; simp
  | cons e t ih =>
    intro acc
    obtain ⟨c, pd⟩ := e
    rw [List.foldl_cons, ih]
    simp only [kwStep, ge_iff_le]
    split
    next h =>
      simp only [List.mem_append, List.mem_singleton, List.mem_cons, Prod.mk.injEq,
        List.not_mem_nil, or_false]
      constructor
      · rintro ((hm | rfl) | ⟨pd', hm, hs⟩)
        · exact Or.inl hm
        · exact Or.inr ⟨pd, Or.inl ⟨rfl, rfl⟩, h⟩
        · exact Or.inr ⟨pd', Or.inr hm, hs⟩
      · rintro (hm | ⟨pd', (⟨rfl, rfl⟩ | hm), hs⟩)
        · exact Or.inl (Or.inl hm)
        · exact Or.inl (Or.inr rfl)
        · exact Or.inr ⟨pd', hm, hs⟩
    next h =>
      simp only [List.mem_cons, Prod.mk.injEq]
      constructor
      · rintro (hm | ⟨pd', hm, hs⟩)
        · exact Or.inl hm
        · exact Or.inr ⟨pd', Or.inr hm, hs⟩
      · rintro (hm | ⟨pd', (⟨rfl, rfl⟩ | hm), hs⟩)
        · exact Or.inl hm
        · exact absurd hs h
        · exact Or.inr ⟨pd', hm, hs⟩

lemma mapJobToPrograms_job_id (thr : ℚ) (dict : ProgramsDict) (now : String)
    (outcome : ApiOutcome) (job : JobData) :
    (mapJobToPrograms thr dict now outcome job).job_id = job.job_id := by
  cases outcome with
  | raises => rfl
  | responds parsed =>
    cases parsed with
    | none => rfl
    | some p => rfl

lemma processJobsBatchAux_length (thr : ℚ) (dict : ProgramsDict) (now : String)
    (outcomes : Nat → ApiOutcome) :
    ∀ (jobs : List JobData) (k : ℕ),
      (processJobsBatchAux thr dict now outcomes k jobs).length = jobs.length := by
  intro jobs
  induction jobs with
  | nil => intro k; rfl
  | cons j t ih => intro k; simp [processJobsBatchAux, ih]

lemma processJobsBatch_length (thr : ℚ) (dict : ProgramsDict) (now : String)
    (outcomes : Nat → ApiOutcome) (jobs : List JobData) :
    (processJobsBatch thr dict now outcomes jobs).length = jobs.length :=
  processJobsBatchAux_length thr dict now outcomes jobs 0

lemma processJobsBatchAux_getElem? (thr : ℚ) (dict : ProgramsDict) (now : String)
    (outcomes : Nat → ApiOutcome) :
    ∀ (jobs : List JobData) (k i : ℕ),
      (processJobsBatchAux thr dict now outcomes k jobs)[i]? =
        (jobs[i]?).map (fun j => mapJobToPrograms thr dict now (outcomes (k + i)) j) := by
  intro jobs
  induction jobs with
  | nil => intro k i; simp [processJobsBatchAux]
  | cons j t ih =>
    intro k i
    cases i with
    | zero => simp [processJobsBatchAux]
    | succ n =>
      simp only [processJobsBatchAux, List.getElem?_cons_succ]
      rw [ih (k + 1) n]
      have hk : k + 1 + n = k + (n + 1) := by omega
      rw [hk]

lemma foldl_filterMap {α β : Type} (f : α → Option β) :
    ∀ (l : List α) (acc : List β),
      l.foldl (fun a x => match f x with | some n => a ++ [n] | none => a) acc
        = acc ++ l.filterMap f := by
  intro l
  induction l with
  | nil => intro acc; simp
  | cons a t ih =>
    intro acc
    rw [List.foldl_cons]
    cases hf : f a with
    | none => simp only [hf]; rw [ih, List.filterMap_cons_none hf]
    | some b =>
      simp only [hf]
      rw [ih, List.filterMap_cons_some hf]
      simp

/-! ### Claims -/

/-- C1, counterexample: a semantic-tier *service error* (an exception from
the completion call, `ApiOutcome.raises`) does not fall through to the
keyword strategy.  At this concrete job and dictionary the engine returns
the empty fallback result tagged `fallback`, while the keyword strategy
applied directly maps `F35` and tags `keyword_matching`. -/
theorem C1_counterexample :
    (mapJobToPrograms 0.2 dictA "T0" ApiOutcome.raises jobA).source = "fallback" ∧
    (keywordBasedMapping 0.2 dictA "T0" jobA).source = "keyword_matching" ∧
    (mapJobToPrograms 0.2 dictA "T0" ApiOutcome.raises jobA).mapped_programs = [] ∧
    (keywordBasedMapping 0.2 dictA "T0" jobA).mapped_programs = ["F35"] ∧
    (mapJobToPrograms 0.2 dictA "T0" ApiOutcome.raises jobA).reasoning ≠
      (keywordBasedMapping 0.2 dictA "T0" jobA).reasoning := by
  refine ⟨rfl, rfl, rfl, ?_, ?_⟩
  · norm_num [keywordBasedMapping, kwStep, matchScore, matchedKeywords, programTerms,
      programSkills, contractorBonus, dictA, pdF35,
      show occursInS (strLower "F-35 Lightning II") (searchableText jobA) = false from by decide,
      show occursInS (strLower "F-35") (searchableText jobA) = false from by decide,
      show occursInS (strLower "avionics") (searchableText jobA) = true from by decide,
      show occursInS (strLower "Lockheed Martin") (strLower jobA.company) = false from by decide]
  · intro h
    have h2 : (mapJobToPrograms 0.2 dictA "T0" ApiOutcome.raises jobA).reasoning
        = "Failed to analyze job posting" := rfl
    rw [h2] at h
    have h3 : (keywordBasedMapping 0.2 dictA "T0" jobA).reasoning
        = "Keyword-based mapping using terms: "
          ++ String.intercalate ", "
              ((dictA.foldl (kwStep 0.2 (searchableText jobA) jobA) ([], [])).2.dedup) := rfl
    rw [h3] at h
    revert h
    norm_num [kwStep, matchScore, matchedKeywords, programTerms,
      programSkills, contractorBonus, dictA, pdF35,
      show occursInS (strLower "F-35 Lightning II") (searchableText jobA) = false from by decide,
      show occursInS (strLower "F-35") (searchableText jobA) = false from by decide,
      show occursInS (strLower "avionics") (searchableText jobA) = true from by decide,
      show occursInS (strLower "Lockheed Martin") (strLower jobA.company) = false from by decide]
    decide

/-- C1, amended: only a *response whose JSON extraction fails* falls
through to the Keyword Mapping Strategy applied to the same job (same
`mapped_programs`, `confidence_score`, `reasoning`, and the
`keyword_matching` source tag).  An exception from the completion call
(service error, timeout, network failure) is instead caught at the engine
boundary and yields the empty fallback mapping tagged `fallback`. -/
theorem C1_amended_semantic_fallback (thr : ℚ) (dict : ProgramsDict) (now : String)
    (job : JobData) :
    mapJobToPrograms thr dict now (ApiOutcome.responds none) job
      = keywordBasedMapping thr dict now job ∧
    (mapJobToPrograms thr dict now (ApiOutcome.responds none) job).source
      = "keyword_matching" ∧
    mapJobToPrograms thr dict now ApiOutcome.raises job
      = createFallbackMapping now job :=
  ⟨rfl, rfl, rfl⟩

/-- C2 (code bug): the extractor upper-cases its input, so the
mixed-case alternatives `Top\s+Secret/SCI` and `Top\s+Secret\s+SCI` can
never match, and `TS/SCI` does not occur in `TOP SECRET/SCI`.  A text
containing "Top Secret/SCI" therefore falls through to the `Secret`
pattern instead of yielding `TS/SCI`. -/
theorem C2_clearance_eval :
    extractClearance "Requires an active Top Secret/SCI clearance" = some "Secret" ∧
    extractClearance "Requires an active Top Secret/SCI clearance" ≠ some "TS/SCI" := by
  constructor
  · decide
  · decide

/-- C3: `map_job_to_programs` is total (this embedding returns a
`MappingResult` for every outcome of the external call), and an exception
escaping the cascade (`ApiOutcome.raises`) is caught at the engine
boundary and converted to the fail-safe empty mapping: `source =
fallback`, empty `mapped_programs`, `confidence_score = 0.0`, keeping the
job's id. -/
theorem C3_engine_failsafe (thr : ℚ) (dict : ProgramsDict) (now : String)
    (job : JobData) :
    (mapJobToPrograms thr dict now ApiOutcome.raises job).source = "fallback" ∧
    (mapJobToPrograms thr dict now ApiOutcome.raises job).mapped_programs = [] ∧
    (mapJobToPrograms thr dict now ApiOutcome.raises job).confidence_score = 0 ∧
    (mapJobToPrograms thr dict now ApiOutcome.raises job).job_id = job.job_id :=
  ⟨rfl, rfl, rfl, rfl⟩

/-- C4, counterexample: a *malformed* dictionary file does not yield an
empty dictionary — `json.load` raises `JSONDecodeError`, which the
`except FileNotFoundError` handler does not catch, so loading fails. -/
theorem C4_counterexample :
    loadProgramsDictionary DictSource.malformedJson = Except.error "JSONDecodeError" ∧
    loadProgramsDictionary DictSource.malformedJson ≠ Except.ok [] := by
  refine ⟨rfl, ?_⟩
  intro h
  simp [loadProgramsDictionary] at h

/-- C4, amended: only a *missing* dictionary file is fail-open (caught
`FileNotFoundError`, empty dictionary); with the empty dictionary the
keyword tier and the fail-safe tier both yield empty mappings with zero
confidence rather than aborting. -/
theorem C4_amended_fail_open (thr : ℚ) (now : String) (job : JobData) :
    loadProgramsDictionary DictSource.fileNotFound = Except.ok [] ∧
    (keywordBasedMapping thr [] now job).mapped_programs = [] ∧
    (keywordBasedMapping thr [] now job).confidence_score = 0 ∧
    (createFallbackMapping now job).mapped_programs = [] ∧
    (createFallbackMapping now job).confidence_score = 0 := by
  refine ⟨rfl, rfl, ?_, rfl, rfl⟩
  norm_num [keywordBasedMapping]

/-- C5: a program code is in `mapped_programs` iff some dictionary entry
with that code accumulates a score of at least the threshold, where the
score is `0.3` per term (full name, acronym, code name) occurring in the
lower-cased title-plus-description text, `0.2` per occurring key skill,
and `0.4` when the lower-cased prime contractor occurs in the lower-cased
company. -/
theorem C5_keyword_scoring (thr : ℚ) (dict : ProgramsDict) (now : String)
    (job : JobData) (p : String) :
    p ∈ (keywordBasedMapping thr dict now job).mapped_programs ↔
      ∃ pd, (p, pd) ∈ dict ∧
        thr ≤ 0.3 * ((programTerms pd).countP
                (fun t => occursInS t (searchableText job)) : ℚ)
            + 0.2 * ((programSkills pd).countP
                (fun t => occursInS t (searchableText job)) : ℚ)
            + contractorBonus pd job := by
  have h := mem_kwFold thr (searchableText job) job p dict ([], [])
  simp only [matchScore_eq, List.not_mem_nil, false_or] at h
  exact h

/-- C6: the keyword strategy's confidence equals
`min(0.7, 0.2 × |mapped_programs|)`; it never exceeds `0.7`, and the
formula is monotonically non-decreasing in the number of mapped
programs. -/
theorem C6_confidence_cap (thr : ℚ) (dict : ProgramsDict) (now : String)
    (job : JobData) (n m : ℕ) (h : n ≤ m) :
    (keywordBasedMapping thr dict now job).confidence_score =
      min 0.7 (0.2 * ((keywordBasedMapping thr dict now job).mapped_programs.length : ℚ)) ∧
    (keywordBasedMapping thr dict now job).confidence_score ≤ 0.7 ∧
    min (0.7 : ℚ) (0.2 * (n : ℚ)) ≤ min (0.7 : ℚ) (0.2 * (m : ℚ)) := by
  have h1 : (keywordBasedMapping thr dict now job).confidence_score =
      min 0.7 (0.2 * ((keywordBasedMapping thr dict now job).mapped_programs.length : ℚ)) := rfl
  refine ⟨h1, ?_, ?_⟩
  · rw [h1]
    exact min_le_left _ _
  · refine min_le_min le_rfl ?_
    have hc : (n : ℚ) ≤ (m : ℚ) := by exact_mod_cast h
    nlinarith

/-- C6, witness at `n = 1 ≤ m = 2`. -/
theorem C6_confidence_cap_witness :
    (keywordBasedMapping 0.2 dictA "T0" jobA).confidence_score =
      min 0.7 (0.2 * ((keywordBasedMapping 0.2 dictA "T0" jobA).mapped_programs.length : ℚ)) ∧
    (keywordBasedMapping 0.2 dictA "T0" jobA).confidence_score ≤ 0.7 ∧
    min (0.7 : ℚ) (0.2 * ((1 : ℕ) : ℚ)) ≤ min (0.7 : ℚ) (0.2 * ((2 : ℕ) : ℚ)) :=
  C6_confidence_cap 0.2 dictA "T0" jobA 1 2 (by norm_num)

/-- C7: batch mapping yields exactly one result per input job, in input
order, result `i` carrying input job `i`'s id; and a different external
outcome on the *other* jobs does not change job `i`'s result. -/
theorem C7_batch_alignment (thr : ℚ) (dict : ProgramsDict) (now : String)
    (outcomes outcomes' : Nat → ApiOutcome) (jobs : List JobData) (i : ℕ)
    (h : i < jobs.length) (hsame : outcomes i = outcomes' i) :
    (processJobsBatch thr dict now outcomes jobs).length = jobs.length ∧
    ((processJobsBatch thr dict now outcomes jobs)[i]?).isSome = true ∧
    ((processJobsBatch thr dict now outcomes jobs)[i]?).map MappingResult.job_id
      = (jobs[i]?).map JobData.job_id ∧
    (processJobsBatch thr dict now outcomes jobs)[i]?
      = (processJobsBatch thr dict now outcomes' jobs)[i]? := by
  have hget := processJobsBatchAux_getElem? thr dict now outcomes jobs 0 i
  have hget' := processJobsBatchAux_getElem? thr dict now outcomes' jobs 0 i
  refine ⟨processJobsBatch_length thr dict now outcomes jobs, ?_, ?_, ?_⟩
  · rw [processJobsBatch, hget]
    have : (jobs[i]?).isSome = true := by
      rw [List.getElem?_eq_getElem h]
      rfl
    cases hj : jobs[i]? with
    | none => rw [hj] at this; cases this
    | some j => rfl
  · rw [processJobsBatch, hget]
    cases hj : jobs[i]? with
    | none => rfl
    | some j =>
      simp [mapJobToPrograms_job_id]
  · rw [processJobsBatch, processJobsBatch, hget, hget', Nat.zero_add, hsame]

/-- C7, witness at a one-job batch with differing outcomes after index 0. -/
theorem C7_batch_alignment_witness :
    (processJobsBatch 0.2 dictA "T0" (fun _ => ApiOutcome.raises) [jobA]).length
      = [jobA].length ∧
    ((processJobsBatch 0.2 dictA "T0" (fun _ => ApiOutcome.raises) [jobA])[0]?).isSome
      = true ∧
    ((processJobsBatch 0.2 dictA "T0" (fun _ => ApiOutcome.raises) [jobA])[0]?).map
        MappingResult.job_id = ([jobA][0]?).map JobData.job_id ∧
    (processJobsBatch 0.2 dictA "T0" (fun _ => ApiOutcome.raises) [jobA])[0]?
      = (processJobsBatch 0.2 dictA "T0"
          (fun n => if n = 0 then ApiOutcome.raises else ApiOutcome.responds none)
          [jobA])[0]? :=
  C7_batch_alignment 0.2 dictA "T0" _ _ [jobA] 0 (by decide) rfl

/-- C8: on well-formed records normalization is total — the batch loop
equals an order-preserving `filterMap` (discarded records silently
omitted, no placeholder entries), and since no exception path is reachable
it in fact equals `map` (every record yields a `NormalizedJob`). -/
theorem C8_normalize_total_batch (clock : Clock) (parseDate : String → Option String)
    (jobs : List RawJob) :
    normalizeBatchLoop clock parseDate jobs
      = jobs.filterMap (normalizeJobOpt clock parseDate) ∧
    normalizeBatchLoop clock parseDate jobs
      = jobs.map (normalizeJob clock parseDate) := by
  have h1 : normalizeBatchLoop clock parseDate jobs
      = jobs.filterMap (normalizeJobOpt clock parseDate) := by
    simpa [normalizeBatchLoop]
      using foldl_filterMap (normalizeJobOpt clock parseDate) jobs []
  have h2 : ∀ (l : List RawJob),
      l.filterMap (normalizeJobOpt clock parseDate) = l.map (normalizeJob clock parseDate) := by
    intro l
    induction l with
    | nil => rfl
    | cons j t ih => simp [normalizeJobOpt, List.filterMap_cons, ih]
  exact ⟨h1, h1.trans (h2 jobs)⟩

/-- C9, counterexample: a raw record with *no* `scraped_at` is not passed
through unchanged — the normalizer substitutes the current time. -/
theorem C9_counterexample :
    rawNoScrape.scraped_at = none ∧
    (normalizeJob clock0 dateOracle0 rawNoScrape).scraped_at = "2026-10-12T00:00:00" ∧
    (normalizeJob clock0 dateOracle0 rawNoScrape).scraped_at = clock0.nowIso :=
  ⟨rfl, rfl, rfl⟩

/-- C9, amended: when `source` and `scraped_at` are *present* in the raw
record they pass through unchanged; an absent `source` becomes the empty
string and an absent `scraped_at` becomes the normalization time. -/
theorem C9_amended_passthrough (clock : Clock) (parseDate : String → Option String)
    (raw : RawJob) (s t : String)
    (hs : raw.source = some s) (ht : raw.scraped_at = some t) :
    (normalizeJob clock parseDate raw).source = s ∧
    (normalizeJob clock parseDate raw).scraped_at = t := by
  constructor
  · show (raw.source.getD "") = s
    rw [hs]
    rfl
  · show (raw.scraped_at.getD clock.nowIso) = t
    rw [ht]
    rfl

/-- C9, witness on a fully populated raw record. -/
theorem C9_amended_passthrough_witness :
    (normalizeJob clock0 dateOracle0 rawFull).source = "insight_global" ∧
    (normalizeJob clock0 dateOracle0 rawFull).scraped_at = "2025-01-01T00:00:00" :=
  C9_amended_passthrough clock0 dateOracle0 rawFull _ _ rfl rfl

/-- C10: a program whose `prime_contractor` is absent or empty passes the
contractor check for every job — the empty string is a Python substring of
any company — so it unconditionally receives the `0.4` contractor score,
and its match score is therefore at least `0.4` for every job text. -/
theorem C10_empty_contractor (pd : ProgramDetails) (job : JobData) (jobText : String)
    (h : pd.prime_contractor = none ∨ pd.prime_contractor = some "") :
    contractorBonus pd job = 0.4 ∧ (0.4 : ℚ) ≤ matchScore jobText job pd := by
  have he : pd.prime_contractor.getD "" = "" := by
    rcases h with h | h <;> simp [h]
  have hocc : occursInS (strLower (pd.prime_contractor.getD ""))
      (strLower job.company) = true := by
    rw [he]
    exact occursIn_nil _
  have hb : contractorBonus pd job = 0.4 := by
    simp only [contractorBonus, hocc, if_true]
  refine ⟨hb, ?_⟩
  rw [matchScore_eq, hb]
  have h1 : (0 : ℚ) ≤ 0.3 * ((programTerms pd).countP
      (fun t => occursInS t jobText) : ℚ) := by positivity
  have h2 : (0 : ℚ) ≤ 0.2 * ((programSkills pd).countP
      (fun t => occursInS t jobText) : ℚ) := by positivity
  linarith

/-- C10, witness at a program with no contractor field. -/
theorem C10_empty_contractor_witness :
    contractorBonus pdNoContractor jobA = 0.4 ∧
    (0.4 : ℚ) ≤ matchScore "x" jobA pdNoContractor :=
  C10_empty_contractor pdNoContractor jobA "x" (Or.inl rfl)

end PrimeTime
